import Mathlib

/-!
Verification of the particle-storage core: a shallow embedding of the
`Cabana::AoSoA` container (Cabana_AoSoA.hpp) and of the `Cajita`
grid-driven particle creation routines (Cajita_ParticleInit.hpp), with
theorems checking the specified container and generation properties.

Sizes and indices are C++ `int` / `std::size_t` values that are
non-negative in every specified scenario; they are embedded as `Nat`
(C++ truncating integer division on non-negative ints agrees with `Nat`
division).  Tuples (whole particle records) are an abstract type `α`:
the container stores and moves them whole, never inspecting them.
-/

set_option linter.unusedVariables false

namespace Cabana

/-- Integer ceiling division exactly as the source computes it in
`AoSoA::resize` and `AoSoA::reserve`:
`num_soa = std::floor( n / vector_length ); if ( 0 < n % vector_length ) ++num_soa;`
(`n / vector_length` is already truncating integer division, so the
`std::floor` is the identity). -/
def ceilDiv (n w : Nat) : Nat :=
  n / w + (if 0 < n % w then 1 else 0)

/-- The state of a `Cabana::AoSoA<DataTypes,MemorySpace,VectorLength>`.
The vector length (block width) `w` is a template parameter in the
source, passed explicitly to every operation here.  `α` is the tuple
type; `_data` is the `Kokkos::View<soa_type*>` of structs-of-arrays,
each SoA embedded as the list of its `w` tuples.  The member pointers
and strides (`_pointers`, `_strides`) are raw-memory addressing data
recomputed from `_data`; they carry no independent state and are not
modelled. -/
structure AoSoA (α : Type) where
  size : Nat
  capacity : Nat
  num_soa : Nat
  data : List (List α)
deriving Repr, DecidableEq

/-- Embeds `AoSoA()` — default constructor: size, capacity and SoA count zero,
no memory allocated. -/
def AoSoA.empty {α : Type} : AoSoA α := ⟨0, 0, 0, []⟩

/-- A freshly allocated SoA block: `w` value-initialized tuples. -/
def newSoA (α : Type) [Inhabited α] (w : Nat) : List α :=
  List.replicate w default

/-- Models the external `Kokkos::resize( _data, num_soa_alloc )` on the
SoA view (Kokkos is an out-of-scope collaborator): reallocates the view
to `n` blocks, copying the existing block contents into the new store
and value-initializing any newly added blocks; truncates when `n` is
smaller. -/
def kokkosViewResize (α : Type) [Inhabited α] (w n : Nat)
    (data : List (List α)) : List (List α) :=
  (data ++ List.replicate (n - data.length) (newSoA α w)).take n

/-- Embeds `AoSoA::reserve( n )`:
early return when `n <= _capacity`; otherwise compute
`num_soa_alloc = ceil(n / vector_length)`, early return when
`num_soa_alloc <= _num_soa`, else set
`_capacity = num_soa_alloc * vector_length` and resize the data view to
`num_soa_alloc` SoAs (`storePointersAndStrides` recomputes derived
addressing data only). -/
def AoSoA.reserve {α : Type} [Inhabited α] (w : Nat) (st : AoSoA α)
    (n : Nat) : AoSoA α :=
  if n ≤ st.capacity then st
  else if ceilDiv n w ≤ st.num_soa then st
  else { st with
         capacity := ceilDiv n w * w,
         data := kokkosViewResize α w (ceilDiv n w) st.data }

/-- Embeds `AoSoA::resize( n )`: `reserve( n )`, then `_size = n` and
`_num_soa = ceil(n / vector_length)`. -/
def AoSoA.resize {α : Type} [Inhabited α] (w : Nat) (st : AoSoA α)
    (n : Nat) : AoSoA α :=
  { st.reserve w n with size := n, num_soa := ceilDiv n w }

/-- Embeds `AoSoA::arraySize( s )`:
`( s < _num_soa - 1 ) ? vector_length : ( _size % vector_length )`.
For `s ≥ 0` the `Nat` truncated subtraction agrees with the C++ `int`
comparison (when `_num_soa = 0` both sides make the condition false). -/
def AoSoA.arraySize {α : Type} (w : Nat) (st : AoSoA α) (s : Nat) : Nat :=
  if s < st.num_soa - 1 then w else st.size % w

/-- Modelled from the spec: `Impl::Index<vector_length>::s` —
`impl/Cabana_Index.hpp` is not among the provided sources; spec §3
"Index mapping": block index `s = idx / blockWidth`. -/
def Index.s (w idx : Nat) : Nat := idx / w

/-- Modelled from the spec: `Impl::Index<vector_length>::i` —
`impl/Cabana_Index.hpp` is not among the provided sources; spec §3
"Index mapping": in-block offset `i = idx % blockWidth`. -/
def Index.i (w idx : Nat) : Nat := idx % w

/-- Embeds `AoSoA::getTuple( idx )`: reads the tuple at
`_data( Index::s(idx) )`, offset `Index::i(idx)`.  `Impl::tupleCopy`
(not among the provided sources) is modelled from the spec §3/§4.1:
a Record is "a value-typed snapshot of all fields for one logical
index" and get/set "copies all fields" — i.e. a whole-tuple copy. -/
def AoSoA.getTuple {α : Type} [Inhabited α] (w : Nat) (st : AoSoA α)
    (idx : Nat) : α :=
  (st.data.getD (Index.s w idx) []).getD (Index.i w idx) default

/-- Embeds `AoSoA::setTuple( idx, tpl )`: writes the whole tuple at
`_data( Index::s(idx) )`, offset `Index::i(idx)` (`Impl::tupleCopy`
modelled as a whole-tuple copy, as in `getTuple`). -/
def AoSoA.setTuple {α : Type} (w : Nat) (st : AoSoA α) (idx : Nat)
    (t : α) : AoSoA α :=
  let blk := (st.data.getD (Index.s w idx) []).set (Index.i w idx) t
  { st with data := st.data.set (Index.s w idx) blk }

/-- Modelled from the spec: `AoSoA::shrinkToFit` — the member is used by
`Cajita_ParticleInit.hpp` but its definition is not among the provided
sources; spec §4.1: "reallocates to exactly `ceil(size/blockWidth)`
blocks, dropping unused capacity". -/
def AoSoA.shrinkToFit {α : Type} [Inhabited α] (w : Nat)
    (st : AoSoA α) : AoSoA α :=
  let nsoa := ceilDiv st.size w
  { st with
    capacity := nsoa * w,
    data := kokkosViewResize α w nsoa st.data }

/-- States reachable through the public interface: the logical size
never exceeds the capacity, the capacity is a whole number of blocks
(it is only ever assigned `num_soa_alloc * vector_length`), `_num_soa`
is the block count of the logical size, the data view holds exactly
`capacity / w` blocks, and every allocated block holds `w` tuples. -/
def Inv {α : Type} (w : Nat) (st : AoSoA α) : Prop :=
  st.size ≤ st.capacity ∧
  st.capacity % w = 0 ∧
  st.num_soa = ceilDiv st.size w ∧
  st.data.length = st.capacity / w ∧
  ∀ b ∈ st.data, b.length = w

instance {α : Type} [DecidableEq α] (w : Nat) (st : AoSoA α) :
    Decidable (Inv w st) := by
  unfold Inv; infer_instance

/-- The mutating container operations (spec §4.1) that a caller can run
after a write: `resize( n )` and `reserve( n )`. -/
inductive Op where
  | resizeOp (n : Nat)
  | reserveOp (n : Nat)

/-- Apply a container operation. -/
def Op.apply {α : Type} [Inhabited α] (w : Nat) (op : Op)
    (st : AoSoA α) : AoSoA α :=
  match op with
  | .resizeOp n => st.resize w n
  | .reserveOp n => st.reserve w n

/-- A sequence of `resize` calls, applied in order. -/
def applyResizes {α : Type} [Inhabited α] (w : Nat) (st : AoSoA α)
    (ns : List Nat) : AoSoA α :=
  ns.foldl (fun s n => s.resize w n) st

end Cabana

namespace Cajita

open Cabana

/-- The per-partition random seed of the random policy:
`local_seed = global_grid.blockId() + ( seed % ( global_grid.blockId() + 1 ) )`
(`seed` is `uint64_t`, `blockId` a non-negative `int`; the arithmetic
never overflows for the modelled values, so `Nat` is exact). -/
def localSeed (seed blockId : Nat) : Nat :=
  blockId + seed % (blockId + 1)

/-- The owned-cell local ids produced by `grid_parallel_for` over the
owned-cell index space with per-dimension extents `ni`, `nj`, `nk`:
`cell_id = i_own + ni * ( j_own + k_own * nj )` for every
`(i_own, j_own, k_own)` in the extents.  The parallel dispatch imposes
no iteration order; the enumeration order chosen here is immaterial to
every property proved about it (candidate sets and pre-assigned slots
are order-independent). -/
def cellIds (ni nj nk : Nat) : List Nat :=
  (List.range nk).flatMap (fun k =>
    (List.range nj).flatMap (fun j =>
      (List.range ni).map (fun i => i + ni * (j + k * nj))))

/-- Candidate particle ids of one cell in the uniform policy, in the
loop order of the source: `ip` (outer), `jp`, `kp` (inner):
`pid = cell_id * particles_per_cell + ip + m * ( jp + m * kp )` with
`particles_per_cell = m³`. -/
def cellPids (m cellId : Nat) : List Nat :=
  (List.range m).flatMap (fun ip =>
    (List.range m).flatMap (fun jp =>
      (List.range m).map (fun kp =>
        cellId * (m * m * m) + ip + m * (jp + m * kp))))

/-- All candidate particle ids of the uniform full-record creation
loop, cells enumerated by their local cell id. -/
def allPids (m : Nat) (cids : List Nat) : List Nat :=
  cids.flatMap (cellPids m)

/-- One candidate of the full-record creation loop.  The user functor
`create_functor( pid, px, pv, particle )` writes the particle record
and reports whether it was created; `px` and `pv` are deterministic
functions of `pid` (and of the external mesh), so the functor is
embedded as `functor : pid ↦ (created, particle)`.  On acceptance the
slot is claimed with `c = atomic_fetch_add( &count(0), 1 )` — embedded
as the running counter in the accumulator — and the record is stored
with `particle_list.setParticle( particle, c )`, which writes the whole
record at index `c` of the underlying AoSoA (`Cajita::ParticleList` is
not among the provided sources; its get/setParticle are modelled from
the spec as whole-record container access). -/
def candidateStep {α : Type} (w : Nat) (functor : Nat → Bool × α)
    (acc : Nat × AoSoA α) (pid : Nat) : Nat × AoSoA α :=
  let r := functor pid
  if r.1 then (acc.1 + 1, acc.2.setTuple w acc.1 r.2) else acc

/-- Result of a record-producing creation call: the returned accepted
count and the populated container. -/
structure GenResult (α : Type) where
  count : Nat
  aosoa : AoSoA α
deriving Repr, DecidableEq

/-- Embeds `createParticles( Cabana::InitUniform, exec_space, create_functor,
particle_list, particles_per_cell_dim, local_grid, shrink_to_fit )`:
resize the AoSoA to `particles_per_cell * owned_cells.size()` with
`particles_per_cell = m³` and `owned_cells.size() = ni*nj*nk`; run the
creation loop over every owned cell and its `m×m×m` sub-grid,
compacting accepted records through the atomic counter; fence; resize
the container down to the final count; optionally shrink to fit;
return the count. -/
def createParticlesUniform {α : Type} [Inhabited α] (w : Nat)
    (functor : Nat → Bool × α) (aosoa : AoSoA α) (m ni nj nk : Nat)
    (shrink_to_fit : Bool) : GenResult α :=
  let particles_per_cell := m * m * m
  let num_particles := particles_per_cell * (ni * nj * nk)
  let st1 := aosoa.resize w num_particles
  let res := (allPids m (cellIds ni nj nk)).foldl
    (candidateStep w functor) (0, st1)
  let st2 := res.2.resize w res.1
  let st3 := if shrink_to_fit then st2.shrinkToFit w else st2
  ⟨res.1, st3⟩

/-- A 3-component particle position (one entry of the positions slice,
`positions( pid, 0..2 )`); the coordinate scalar type `P` (`double` in
the source) is abstract. -/
def Pos (P : Type) : Type := P × P × P

/-- The creation loop of the positions-only random variant, after
seeding.  The external pieces — `Kokkos::Random_XorShift64_Pool`
initialized with `pool.init( local_seed, owned_cells.size() )`, the
per-cell sub-stream `rand = pool.get_state( cell_id )`, the draws
`Kokkos::rand::draw( rand, low_coords[d], high_coords[d] )`, and the
mesh corner coordinates — are RNG/geometry collaborators outside the
core (spec §1, §6); together they determine each drawn coordinate as a
pure function `draw ls cid p d` of the pool seed `ls`, the sub-stream
id `cid`, and the draw position `(p, d)` within that sub-stream.  Each
candidate writes its three coordinates to the pre-assigned slot
`pid = cell_id * particles_per_cell + p`. -/
def fillRandomPositions {P : Type} (draw : Nat → Nat → Nat → Nat → P)
    (ls ppc ni nj nk : Nat) (positions : List (Pos P)) : List (Pos P) :=
  (cellIds ni nj nk).foldl (fun pos cid =>
    (List.range ppc).foldl (fun pos p =>
      pos.set (cid * ppc + p) (draw ls cid p 0, draw ls cid p 1, draw ls cid p 2))
      pos) positions

/-- Embeds `createParticles( Cabana::InitRandom, exec_space, positions,
particles_per_cell, local_grid, seed )` (positions-only): compute
`local_seed`, seed the pool, check the precondition
`assert( positions.size() == particles_per_cell * owned_cells.size() )`
— a contract failure, embedded as the error branch, with nothing yet
written — then fill every pre-assigned slot with the drawn
coordinates. -/
def createParticlesRandomPos {P : Type} (draw : Nat → Nat → Nat → Nat → P)
    (positions : List (Pos P)) (ppc ni nj nk seed blockId : Nat) :
    Except Unit (List (Pos P)) :=
  let ls := localSeed seed blockId
  if positions.length = ppc * (ni * nj * nk) then
    .ok (fillRandomPositions draw ls ppc ni nj nk positions)
  else
    .error ()

/-- The creation loop of the positions-only uniform variant: every
candidate `(cid, ip, jp, kp)` writes, at its pre-assigned slot
`pid = cell_id * m³ + ip + m * ( jp + m * kp )`, the sub-cell center
coordinates `0.5*spacing[d] + {ip,jp,kp}*spacing[d] + low_coords[d]`.
The centers are floating-point values computed from the external mesh;
they enter the model as the abstract function `posVal cid ip jp kp`. -/
def fillUniformPositions {P : Type} (posVal : Nat → Nat → Nat → Nat → Pos P)
    (m ni nj nk : Nat) (positions : List (Pos P)) : List (Pos P) :=
  (cellIds ni nj nk).foldl (fun pos cid =>
    (List.range m).foldl (fun pos ip =>
      (List.range m).foldl (fun pos jp =>
        (List.range m).foldl (fun pos kp =>
          pos.set (cid * (m * m * m) + ip + m * (jp + m * kp))
            (posVal cid ip jp kp)) pos) pos) pos) positions

/-- Embeds `createParticles( Cabana::InitUniform, exec_space, positions,
particles_per_cell_dim, local_grid )` (positions-only): check the
precondition
`assert( positions.size() == particles_per_cell * owned_cells.size() )`
with `particles_per_cell = m³` — a contract failure, embedded as the
error branch, with nothing yet written — then fill every pre-assigned
slot with its sub-cell center. -/
def createParticlesUniformPos {P : Type}
    (posVal : Nat → Nat → Nat → Nat → Pos P) (positions : List (Pos P))
    (m ni nj nk : Nat) : Except Unit (List (Pos P)) :=
  let particles_per_cell := m * m * m
  if positions.length = particles_per_cell * (ni * nj * nk) then
    .ok (fillUniformPositions posVal m ni nj nk positions)
  else
    .error ()

end Cajita

namespace Cabana

/-! Arithmetic facts about the ceiling-division idiom of the source. -/

theorem ceilDiv_zero (w : Nat) : ceilDiv 0 w = 0 := by
  simp [ceilDiv]

theorem le_ceilDiv_mul {w : Nat} (hw : 0 < w) (n : Nat) :
    n ≤ ceilDiv n w * w := by
  unfold ceilDiv
  rcases Nat.eq_zero_or_pos (n % w) with h | h
  · simp [h, Nat.div_mul_cancel (Nat.dvd_of_mod_eq_zero h)]
  · simp only [h, if_pos]
    have h3 := Nat.mod_lt n hw
    nlinarith [Nat.div_add_mod n w]

theorem ceilDiv_le_div {w n c : Nat} (hw : 0 < w) (hsz : n ≤ c)
    (hc : c % w = 0) : ceilDiv n w ≤ c / w := by
  unfold ceilDiv
  rcases Nat.eq_zero_or_pos (n % w) with h | h
  · simpa [h] using Nat.div_le_div_right hsz
  · have hne : n ≠ c := by rintro rfl; omega
    have hlt : n < c / w * w := by
      rw [Nat.div_mul_cancel (Nat.dvd_of_mod_eq_zero hc)]; omega
    have h2 : n / w < c / w :=
      Nat.div_lt_of_lt_mul (by rwa [Nat.mul_comm] at hlt)
    simp only [h, if_pos]
    omega

theorem div_lt_ceilDiv {w n c : Nat} (hw : 0 < w) (hc : c % w = 0)
    (hn : c < n) : c / w < ceilDiv n w := by
  have h1 : n ≤ ceilDiv n w * w := le_ceilDiv_mul hw n
  have h2 : c / w * w = c := Nat.div_mul_cancel (Nat.dvd_of_mod_eq_zero hc)
  have h3 : c / w * w < ceilDiv n w * w := by omega
  exact Nat.lt_of_mul_lt_mul_right h3

/-! Facts about the modelled Kokkos view reallocation. -/

theorem kokkosViewResize_length {α : Type} [Inhabited α] (w n : Nat)
    (data : List (List α)) : (kokkosViewResize α w n data).length = n := by
  simp [kokkosViewResize]
  omega

theorem kokkosViewResize_getD {α : Type} [Inhabited α] {w n s : Nat}
    (data : List (List α)) (hs : s < data.length) (hsn : s < n) :
    (kokkosViewResize α w n data).getD s [] = data.getD s [] := by
  simp [kokkosViewResize, List.getD_eq_getElem?_getD, List.getElem?_take,
        hsn, List.getElem?_append, hs]

theorem kokkosViewResize_blocks {α : Type} [Inhabited α] (w n : Nat)
    (data : List (List α)) (hd : ∀ b ∈ data, b.length = w) :
    ∀ b ∈ kokkosViewResize α w n data, b.length = w := by
  intro b hb
  have hb2 := List.take_subset _ _ hb
  rcases List.mem_append.mp hb2 with h | h
  · exact hd b h
  · rw [List.eq_of_mem_replicate h]
    simp [newSoA]

/-! Case analysis of `AoSoA::reserve`. -/

theorem reserve_of_le {α : Type} [Inhabited α] {w n : Nat} {st : AoSoA α}
    (h : n ≤ st.capacity) : st.reserve w n = st := by
  simp [AoSoA.reserve, h]

theorem reserve_of_gt {α : Type} [Inhabited α] {w n : Nat} {st : AoSoA α}
    (hw : 0 < w) (hsz : st.size ≤ st.capacity) (hcap : st.capacity % w = 0)
    (hnum : st.num_soa = ceilDiv st.size w) (h : st.capacity < n) :
    st.reserve w n =
      { st with capacity := ceilDiv n w * w,
                data := kokkosViewResize α w (ceilDiv n w) st.data } := by
  have h1 : ceilDiv st.size w ≤ st.capacity / w := ceilDiv_le_div hw hsz hcap
  have h2 : st.capacity / w < ceilDiv n w := div_lt_ceilDiv hw hcap h
  unfold AoSoA.reserve
  rw [if_neg (by omega), if_neg (by omega)]

theorem reserve_capacity_mono {α : Type} [Inhabited α] {w : Nat}
    (hw : 0 < w) (st : AoSoA α) (n : Nat) :
    st.capacity ≤ (st.reserve w n).capacity := by
  unfold AoSoA.reserve
  split_ifs with h1 h2
  · exact Nat.le_refl _
  · exact Nat.le_refl _
  · have := le_ceilDiv_mul hw n
    simp only
    omega

theorem resize_capacity_mono {α : Type} [Inhabited α] {w : Nat}
    (hw : 0 < w) (st : AoSoA α) (n : Nat) :
    st.capacity ≤ (st.resize w n).capacity :=
  reserve_capacity_mono hw st n

theorem reserve_capacity_ge {α : Type} [Inhabited α] {w n : Nat}
    {st : AoSoA α} (hw : 0 < w) (hinv : Inv w st) :
    n ≤ (st.reserve w n).capacity := by
  obtain ⟨h1, h2, h3, h4, h5⟩ := hinv
  by_cases hn : n ≤ st.capacity
  · rw [reserve_of_le hn]; exact hn
  · rw [reserve_of_gt hw h1 h2 h3 (Nat.lt_of_not_le hn)]
    exact le_ceilDiv_mul hw n

/-! Preservation of the reachable-state invariant. -/

theorem inv_empty {α : Type} (w : Nat) : Inv w (AoSoA.empty : AoSoA α) := by
  refine ⟨Nat.le_refl 0, by simp [AoSoA.empty], by simp [AoSoA.empty, ceilDiv],
          by simp [AoSoA.empty], by simp [AoSoA.empty]⟩

theorem inv_reserve {α : Type} [Inhabited α] {w : Nat} (hw : 0 < w)
    {st : AoSoA α} (hinv : Inv w st) (n : Nat) : Inv w (st.reserve w n) := by
  obtain ⟨h1, h2, h3, h4, h5⟩ := hinv
  by_cases hn : n ≤ st.capacity
  · rw [reserve_of_le hn]; exact ⟨h1, h2, h3, h4, h5⟩
  · rw [reserve_of_gt hw h1 h2 h3 (Nat.lt_of_not_le hn)]
    refine ⟨?_, ?_, h3, ?_, ?_⟩
    · have := le_ceilDiv_mul hw n
      simp only
      omega
    · simp [Nat.mul_mod_left]
    · simp [kokkosViewResize_length, Nat.mul_div_cancel _ hw]
    · exact kokkosViewResize_blocks w _ st.data h5

theorem inv_resize {α : Type} [Inhabited α] {w : Nat} (hw : 0 < w)
    {st : AoSoA α} (hinv : Inv w st) (n : Nat) : Inv w (st.resize w n) := by
  have hcap : n ≤ (st.reserve w n).capacity := reserve_capacity_ge hw hinv
  obtain ⟨h1, h2, h3, h4, h5⟩ := inv_reserve hw hinv n
  exact ⟨hcap, h2, rfl, h4, h5⟩

/-! Whole-tuple access. -/

theorem index_s_lt_data_length {α : Type} {w : Nat} {st : AoSoA α}
    (hw : 0 < w) (hinv : Inv w st) {idx : Nat} (h : idx < st.size) :
    Index.s w idx < st.data.length := by
  obtain ⟨h1, h2, h3, h4, h5⟩ := hinv
  have hcap : st.data.length * w = st.capacity := by
    rw [h4]; exact Nat.div_mul_cancel (Nat.dvd_of_mod_eq_zero h2)
  have hlt : idx < st.data.length * w := by omega
  exact Nat.div_lt_of_lt_mul (by rwa [Nat.mul_comm] at hlt)

theorem getD_set_self {β : Type} (l : List β) (i : Nat) (x d : β)
    (h : i < l.length) : (l.set i x).getD i d = x := by
  simp [List.getD_eq_getElem?_getD, List.getElem?_set, h]

theorem getTuple_setTuple {α : Type} [Inhabited α] {w : Nat} {st : AoSoA α}
    (hw : 0 < w) (hinv : Inv w st) {idx : Nat} (h : idx < st.size) (t : α) :
    (st.setTuple w idx t).getTuple w idx = t := by
  have hs := index_s_lt_data_length hw hinv h
  have hblock : (st.data.getD (Index.s w idx) []).length = w := by
    have hmem : st.data.getD (Index.s w idx) [] ∈ st.data := by
      rw [List.getD_eq_getElem?_getD, List.getElem?_eq_getElem hs]
      exact List.getElem_mem hs
    exact hinv.2.2.2.2 _ hmem
  have hi : Index.i w idx < (st.data.getD (Index.s w idx) []).length := by
    rw [hblock]; exact Nat.mod_lt idx hw
  simp only [AoSoA.setTuple, AoSoA.getTuple]
  rw [getD_set_self _ _ _ _ hs, getD_set_self _ _ _ _ hi]

/-! Capacity-preserving operations leave the backing data untouched. -/

theorem reserve_eq_of_capacity_eq {α : Type} [Inhabited α] {w : Nat}
    (hw : 0 < w) (st : AoSoA α) (n : Nat)
    (h : (st.reserve w n).capacity = st.capacity) : st.reserve w n = st := by
  unfold AoSoA.reserve at h ⊢
  split_ifs at h ⊢ with h1 h2
  · rfl
  · rfl
  · exfalso
    have h3 := le_ceilDiv_mul hw n
    simp only at h
    omega

theorem op_apply_data_of_capacity_eq {α : Type} [Inhabited α] {w : Nat}
    (hw : 0 < w) (op : Op) (st : AoSoA α)
    (h : (op.apply w st).capacity = st.capacity) :
    (op.apply w st).data = st.data := by
  cases op with
  | resizeOp n =>
      have h2 : (st.reserve w n).capacity = st.capacity := h
      show (st.reserve w n).data = st.data
      rw [reserve_eq_of_capacity_eq hw st n h2]
  | reserveOp n =>
      show (st.reserve w n).data = st.data
      rw [reserve_eq_of_capacity_eq hw st n h]

theorem getTuple_congr_data {α : Type} [Inhabited α] (w : Nat)
    {s t : AoSoA α} (h : s.data = t.data) (idx : Nat) :
    s.getTuple w idx = t.getTuple w idx := by
  simp [AoSoA.getTuple, h]

/-! Capacity never decreases across a sequence of resizes. -/

theorem applyResizes_capacity_mono {α : Type} [Inhabited α] {w : Nat}
    (hw : 0 < w) (ns : List Nat) :
    ∀ st : AoSoA α, st.capacity ≤ (applyResizes w st ns).capacity := by
  induction ns with
  | nil => intro st; exact Nat.le_refl _
  | cons n ns ih =>
      intro st
      calc st.capacity ≤ (st.resize w n).capacity :=
              resize_capacity_mono hw st n
        _ ≤ (applyResizes w (st.resize w n) ns).capacity :=
              ih (st.resize w n)
        _ = (applyResizes w st (n :: ns)).capacity := rfl

end Cabana

namespace Cajita

open Cabana

/-! Counting the candidates of the uniform creation loop. -/

theorem foldl_candidateStep_count {α : Type} (w : Nat)
    (functor : Nat → Bool × α) (hall : ∀ pid, (functor pid).1 = true)
    (pids : List Nat) :
    ∀ acc : Nat × AoSoA α,
      (pids.foldl (candidateStep w functor) acc).1 = acc.1 + pids.length := by
  induction pids with
  | nil => intro acc; simp
  | cons p ps ih =>
      intro acc
      simp only [List.foldl_cons, List.length_cons]
      rw [ih]
      simp [candidateStep, hall p]
      omega

theorem flatMap_length_const {β γ : Type} (l : List β) (f : β → List γ)
    (c : Nat) (h : ∀ b ∈ l, (f b).length = c) :
    (l.flatMap f).length = l.length * c := by
  induction l with
  | nil => simp
  | cons x xs ih =>
      simp only [List.flatMap_cons, List.length_append, List.length_cons]
      rw [h x (by simp), ih (fun b hb => h b (by simp [hb])), Nat.succ_mul]
      omega

theorem cellPids_length (m cid : Nat) :
    (cellPids m cid).length = m * m * m := by
  unfold cellPids
  rw [flatMap_length_const _ _ (m * m)
      (fun ip hip => by
        rw [flatMap_length_const _ _ m (fun jp hjp => by simp)]
        simp)]
  simp
  ring

theorem allPids_length (m : Nat) (cids : List Nat) :
    (allPids m cids).length = cids.length * (m * m * m) := by
  unfold allPids
  exact flatMap_length_const _ _ _ (fun cid hcid => cellPids_length m cid)

theorem cellIds_length (ni nj nk : Nat) :
    (cellIds ni nj nk).length = ni * nj * nk := by
  unfold cellIds
  rw [flatMap_length_const _ _ (nj * ni)
      (fun k hk => by
        rw [flatMap_length_const _ _ ni (fun j hj => by simp)]
        simp)]
  simp
  ring

theorem shrinkToFit_size {α : Type} [Inhabited α] (w : Nat) (st : AoSoA α) :
    (st.shrinkToFit w).size = st.size := rfl

end Cajita

namespace Cabana

/-- C1: the claim states that `arraySize` returns `size mod blockWidth`
for the last block, "or blockWidth if that remainder is zero".  The
source has no such zero-remainder case: for a container with
`vector_length = 2` resized to `size = 2` (one completely full block,
which is the last block, `s = 0`), `arraySize(0)` evaluates
`_size % vector_length = 0` instead of the block width 2 — so the sum
of the per-block array sizes no longer equals `size()`, contradicting
the documented meaning of `arraySize` ("the size of the data array at
the given struct index", the last block being at most partially
unfilled). -/
theorem arraySize_full_last_block_is_zero :
    ((AoSoA.empty : AoSoA Nat).resize 2 2).size = 2 ∧
    ((AoSoA.empty : AoSoA Nat).resize 2 2).num_soa = 1 ∧
    ((AoSoA.empty : AoSoA Nat).resize 2 2).arraySize 2 0 = 0 := by
  decide

/-- C9: the accessor index mapping `s = idx / w`, `i = idx % w`
round-trips (`s * w + i = idx`) and is inverted by
`(s, i) ↦ s * w + i` on in-range offsets `i < w`, hence is a bijection
between logical indices and (block, offset) pairs for every block
width `w > 0`. -/
theorem index_mapping_bijection (w idx s i : Nat) (hw : 0 < w)
    (hi : i < w) :
    Index.s w idx * w + Index.i w idx = idx ∧
    Index.s w (s * w + i) = s ∧ Index.i w (s * w + i) = i := by
  refine ⟨?_, ?_, ?_⟩
  · show idx / w * w + idx % w = idx
    rw [Nat.mul_comm]
    exact Nat.div_add_mod idx w
  · show (s * w + i) / w = s
    rw [Nat.mul_comm s w, Nat.mul_add_div hw, Nat.div_eq_of_lt hi,
        Nat.add_zero]
  · show (s * w + i) % w = i
    rw [Nat.add_comm, Nat.add_mul_mod_self_right, Nat.mod_eq_of_lt hi]

/-- C9 witness: the mapping at `w = 4`, `idx = 11`, `(s, i) = (2, 3)`. -/
theorem index_mapping_bijection_witness :
    Index.s 4 11 * 4 + Index.i 4 11 = 11 ∧
    Index.s 4 (2 * 4 + 3) = 2 ∧ Index.i 4 (2 * 4 + 3) = 3 :=
  index_mapping_bijection 4 11 2 3 (by decide) (by decide)

/-- C5: on any reachable container (`Inv`), `resize(n)` establishes
`size() = n` and `capacity() ≥ n`, and across any sequence of resize
calls (no shrink-to-fit exists on this container) the capacity never
decreases. -/
theorem resize_size_capacity_invariants {α : Type} [Inhabited α]
    (w : Nat) (st : AoSoA α) (n : Nat) (ns : List Nat) (hw : 0 < w)
    (hinv : Inv w st) :
    (st.resize w n).size = n ∧ n ≤ (st.resize w n).capacity ∧
    st.capacity ≤ (applyResizes w st ns).capacity :=
  ⟨rfl, reserve_capacity_ge hw hinv, applyResizes_capacity_mono hw ns st⟩

/-- C5 witness: a width-2 container of size 3, resized to 2 and run
through the resize sequence `[5, 1]`. -/
theorem resize_size_capacity_invariants_witness :
    (((AoSoA.empty : AoSoA Nat).resize 2 3).resize 2 2).size = 2 ∧
    2 ≤ (((AoSoA.empty : AoSoA Nat).resize 2 3).resize 2 2).capacity ∧
    ((AoSoA.empty : AoSoA Nat).resize 2 3).capacity ≤
      (applyResizes 2 ((AoSoA.empty : AoSoA Nat).resize 2 3) [5, 1]).capacity :=
  resize_size_capacity_invariants 2 ((AoSoA.empty : AoSoA Nat).resize 2 3)
    2 [5, 1] (by decide) (by decide)

/-- C4 counterexample: the invariant `numBlocks = ceil(capacity /
blockWidth)` is not preserved by a resize to an `n` smaller than the
current capacity: with `vector_length = 2`, after `resize(4)` then
`resize(2)` the container has `_num_soa = 1` but
`ceil(capacity / blockWidth) = ceil(4 / 2) = 2` (`resize` recomputes
`_num_soa` from the new logical size while the capacity keeps the old
allocation). -/
theorem numBlocks_capacity_invariant_counterexample :
    (((AoSoA.empty : AoSoA Nat).resize 2 4).resize 2 2).num_soa = 1 ∧
    ceilDiv (((AoSoA.empty : AoSoA Nat).resize 2 4).resize 2 2).capacity 2 = 2 ∧
    (((AoSoA.empty : AoSoA Nat).resize 2 4).resize 2 2).num_soa ≠
      ceilDiv (((AoSoA.empty : AoSoA Nat).resize 2 4).resize 2 2).capacity 2 := by
  decide

/-- C4 (amended): the invariants that do hold after the default
constructor and are preserved by `resize` and `reserve` are
`size ≤ capacity`, `capacity` a whole number of blocks,
`numBlocks = ceil(size / blockWidth)` (not of the capacity), the
allocation holding `capacity / blockWidth` blocks of `blockWidth`
tuples each (`Inv`). -/
theorem container_invariants_preserved {α : Type} [Inhabited α]
    (w : Nat) (st : AoSoA α) (n : Nat) (hw : 0 < w) (hinv : Inv w st) :
    Inv w (AoSoA.empty : AoSoA α) ∧ Inv w (st.resize w n) ∧
    Inv w (st.reserve w n) :=
  ⟨inv_empty w, inv_resize hw hinv n, inv_reserve hw hinv n⟩

/-- C4 witness: the preserved invariant at `w = 2`, from the empty
container through `resize(3)` and `reserve(3)`. -/
theorem container_invariants_preserved_witness :
    Inv 2 (AoSoA.empty : AoSoA Nat) ∧
    Inv 2 ((AoSoA.empty : AoSoA Nat).resize 2 3) ∧
    Inv 2 ((AoSoA.empty : AoSoA Nat).reserve 2 3) :=
  container_invariants_preserved 2 (AoSoA.empty : AoSoA Nat) 3
    (by decide) (by decide)

/-- C3: on any reachable container, `reserve(n)` is the identity when
`n ≤ capacity`; when `n > capacity` it sets the capacity to exactly
`ceil(n / blockWidth) * blockWidth`, leaves the size unchanged, and
every entry at indices `0 .. size-1` retains its value (read back by
index) after the reallocation. -/
theorem reserve_spec {α : Type} [Inhabited α] (w : Nat) (st : AoSoA α)
    (n : Nat) (hw : 0 < w) (hinv : Inv w st) :
    (n ≤ st.capacity → st.reserve w n = st) ∧
    (st.capacity < n →
      (st.reserve w n).capacity = ceilDiv n w * w ∧
      (st.reserve w n).size = st.size ∧
      ∀ idx, idx < st.size →
        (st.reserve w n).getTuple w idx = st.getTuple w idx) := by
  obtain ⟨h1, h2, h3, h4, h5⟩ := hinv
  refine ⟨fun h => reserve_of_le h, fun h => ?_⟩
  rw [reserve_of_gt hw h1 h2 h3 h]
  refine ⟨rfl, rfl, fun idx hidx => ?_⟩
  have hs : Index.s w idx < st.data.length :=
    index_s_lt_data_length hw ⟨h1, h2, h3, h4, h5⟩ hidx
  have hsn : Index.s w idx < ceilDiv n w := by
    have hd := div_lt_ceilDiv hw h2 h
    omega
  simp only [AoSoA.getTuple]
  rw [kokkosViewResize_getD st.data hs hsn]

/-- C3 witness: a width-2 container of size 2 (capacity 2), grown with
`reserve(5)`: the new capacity is `ceil(5/2) * 2 = 6` and entry 1
reads back unchanged. -/
theorem reserve_spec_witness :
    (((AoSoA.empty : AoSoA Nat).resize 2 2).reserve 2 5).capacity = 6 ∧
    (((AoSoA.empty : AoSoA Nat).resize 2 2).reserve 2 5).getTuple 2 1 =
      ((AoSoA.empty : AoSoA Nat).resize 2 2).getTuple 2 1 := by
  have h := (reserve_spec 2 ((AoSoA.empty : AoSoA Nat).resize 2 2) 5
    (by decide) (by decide)).2 (by decide)
  exact ⟨h.1.trans (by decide), h.2.2 1 (by decide)⟩

/-- C8: writing a record `r` at a valid index `idx < size` with
`setTuple` and reading it back with `getTuple` yields `r`, both
immediately and after any subsequent container operation (`resize` or
`reserve`) that preserves the capacity. -/
theorem setTuple_getTuple_roundtrip {α : Type} [Inhabited α] (w : Nat)
    (st : AoSoA α) (idx : Nat) (r : α) (op : Op) (hw : 0 < w)
    (hinv : Inv w st) (hidx : idx < st.size)
    (hcap : (op.apply w (st.setTuple w idx r)).capacity =
      (st.setTuple w idx r).capacity) :
    (st.setTuple w idx r).getTuple w idx = r ∧
    (op.apply w (st.setTuple w idx r)).getTuple w idx = r := by
  have h1 := getTuple_setTuple hw hinv hidx r
  refine ⟨h1, ?_⟩
  rw [getTuple_congr_data w
    (op_apply_data_of_capacity_eq hw op (st.setTuple w idx r) hcap) idx]
  exact h1

/-- C8 witness: record 9 written at index 2 of a width-2 container of
size 4 reads back as 9, also after the capacity-preserving
`resize(3)`. -/
theorem setTuple_getTuple_roundtrip_witness :
    ((((AoSoA.empty : AoSoA Nat).resize 2 4).setTuple 2 2 9).getTuple 2 2 = 9) ∧
    (((Op.resizeOp 3).apply 2
        (((AoSoA.empty : AoSoA Nat).resize 2 4).setTuple 2 2 9)).getTuple 2 2 = 9) :=
  setTuple_getTuple_roundtrip 2 ((AoSoA.empty : AoSoA Nat).resize 2 4)
    2 9 (Op.resizeOp 3) (by decide) (by decide) (by decide) (by decide)

end Cabana

namespace Cajita

open Cabana

/-- C2: for the uniform policy over `ni*nj*nk` owned cells with
per-dimension count `m`, if the creation functor accepts every
candidate then the returned accepted count is `cells * m³`, and the
container ends resized to exactly that size (with or without the
optional shrink-to-fit). -/
theorem uniform_generation_count {α : Type} [Inhabited α] (w : Nat)
    (functor : Nat → Bool × α) (aosoa : AoSoA α) (m ni nj nk : Nat)
    (shrink_to_fit : Bool) (hall : ∀ pid, (functor pid).1 = true) :
    (createParticlesUniform w functor aosoa m ni nj nk shrink_to_fit).count =
      (ni * nj * nk) * m ^ 3 ∧
    (createParticlesUniform w functor aosoa m ni nj nk shrink_to_fit).aosoa.size =
      (ni * nj * nk) * m ^ 3 := by
  have hcount : ∀ st0 : AoSoA α,
      ((allPids m (cellIds ni nj nk)).foldl
        (candidateStep w functor) (0, st0)).1 = (ni * nj * nk) * m ^ 3 := by
    intro st0
    rw [foldl_candidateStep_count w functor hall, allPids_length,
        cellIds_length]
    ring
  constructor
  · simp only [createParticlesUniform]
    exact hcount _
  · cases shrink_to_fit with
    | false =>
        simp only [createParticlesUniform, Bool.false_eq_true, if_neg]
        show ((_ : Nat × AoSoA α).2.resize w _).size = _
        rw [AoSoA.resize]
        exact hcount _
    | true =>
        simp only [createParticlesUniform, if_pos]
        rw [shrinkToFit_size]
        show ((_ : Nat × AoSoA α).2.resize w _).size = _
        rw [AoSoA.resize]
        exact hcount _

/-- C2 witness: one owned cell, `m = 2`, an unconditionally accepting
functor: 8 accepted records and final size 8. -/
theorem uniform_generation_count_witness :
    (createParticlesUniform 2 (fun pid => (true, pid))
      (AoSoA.empty : AoSoA Nat) 2 1 1 1 false).count = 8 ∧
    (createParticlesUniform 2 (fun pid => (true, pid))
      (AoSoA.empty : AoSoA Nat) 2 1 1 1 false).aosoa.size = 8 := by
  have h := uniform_generation_count 2 (fun pid => (true, pid))
    (AoSoA.empty : AoSoA Nat) 2 1 1 1 false (fun pid => rfl)
  simpa using h

/-- C6: two runs of the random positions-only generation with the same
seed argument, the same partition identifier (global-grid block id),
the same owned-cell set and the same destination storage produce
exactly the same generated positions (the drawn coordinates are a
deterministic function of the pool seed `localSeed(seed, blockId)`,
the per-cell sub-stream id and the draw ordinal, and every candidate
writes a pre-assigned slot, so the parallel execution order cannot
perturb the result). -/
theorem random_positions_reproducible {P : Type}
    (draw : Nat → Nat → Nat → Nat → P) (positions : List (Pos P))
    (ppc ni nj nk seedA seedB blockA blockB : Nat)
    (hseed : seedA = seedB) (hblock : blockA = blockB) :
    createParticlesRandomPos draw positions ppc ni nj nk seedA blockA =
      createParticlesRandomPos draw positions ppc ni nj nk seedB blockB := by
  rw [hseed, hblock]

/-- C6 witness: two identically seeded runs over one cell. -/
theorem random_positions_reproducible_witness :
    createParticlesRandomPos (fun a b c d => a + b + c + d)
      [((1, 2, 3) : Pos Nat)] 1 1 1 1 9 4 =
    createParticlesRandomPos (fun a b c d => a + b + c + d)
      [((1, 2, 3) : Pos Nat)] 1 1 1 1 9 4 :=
  random_positions_reproducible (fun a b c d => a + b + c + d)
    [((1, 2, 3) : Pos Nat)] 1 1 1 1 9 9 4 4 rfl rfl

/-- C7: for both positions-only variants (random and uniform), a
destination storage whose length differs from
`cellsOwned * particlesPerCell` makes the call report the precondition
violation (the assert, embedded as the error result) before any slot
is written — no partial completion. -/
theorem positions_size_mismatch_reports_error {P : Type}
    (draw : Nat → Nat → Nat → Nat → P)
    (posVal : Nat → Nat → Nat → Nat → Pos P)
    (positions positionsU : List (Pos P))
    (ppc ni nj nk seed blockId m mi mj mk : Nat)
    (hr : positions.length ≠ ppc * (ni * nj * nk))
    (hu : positionsU.length ≠ (m * m * m) * (mi * mj * mk)) :
    createParticlesRandomPos draw positions ppc ni nj nk seed blockId =
      .error () ∧
    createParticlesUniformPos posVal positionsU m mi mj mk = .error () := by
  constructor
  · simp [createParticlesRandomPos, hr]
  · simp [createParticlesUniformPos, hu]

/-- C7 witness: an empty destination for a one-cell one-particle
request errors out in both variants. -/
theorem positions_size_mismatch_reports_error_witness :
    createParticlesRandomPos (fun a b c d => a + b + c + d)
      ([] : List (Pos Nat)) 1 1 1 1 0 0 = .error () ∧
    createParticlesUniformPos (fun a b c d => ((a, b, c) : Pos Nat))
      ([] : List (Pos Nat)) 1 1 1 1 = .error () :=
  positions_size_mismatch_reports_error (fun a b c d => a + b + c + d)
    (fun a b c d => ((a, b, c) : Pos Nat)) [] [] 1 1 1 1 0 0 1 1 1 1
    (by decide) (by decide)

/-- C10: when the partition identifier (global-grid block id) is 0, the
per-partition seed `local_seed = blockId + seed % (blockId + 1)`
collapses to 0 for every caller seed (`seed % 1 = 0`), so on partition
0 the random positions-only generation produces identical positions
for any two distinct seed arguments. -/
theorem partition_zero_seed_collapse {P : Type}
    (draw : Nat → Nat → Nat → Nat → P) (positions : List (Pos P))
    (ppc ni nj nk seedA seedB : Nat) :
    (∀ seed : Nat, localSeed seed 0 = 0) ∧
    createParticlesRandomPos draw positions ppc ni nj nk seedA 0 =
      createParticlesRandomPos draw positions ppc ni nj nk seedB 0 := by
  constructor
  · intro seed
    simp [localSeed, Nat.mod_one]
  · simp [createParticlesRandomPos, localSeed, Nat.mod_one]

end Cajita
